import Mathlib

/-!
Verification of the vehicle-breakdown monitoring application (`app3.py`).

The development shallowly embeds the decision logic of the program:
the cause-rule engine `get_causes` (lines 55-69), the primary-cause
selection (line 155), the per-reading enrichment of the live-monitoring
loop (lines 147-164), the end-of-run and Stop-button flushes
(lines 129-139 and 182-191), the log-file naming (lines 133-136) and the
dashboard's latest-log selection (lines 86-89).

Numeric sensor values and probabilities are modelled as rationals,
predictions as integers, and log-file names as lists of character codes
(which is what Python's string comparison orders).
-/

namespace VehicleApp

/-- One sensor reading: the feature columns of `base_df` used by the app
(`features` list, lines 42-46) plus the source `Timestamp` column. -/
structure Reading where
  Engine_Coolant_Temperature : ℚ
  Intake_Manifold_Abs_Pressure : ℚ
  Engine_RPM : ℚ
  Vehicle_Speed : ℚ
  Intake_Air_Temperature : ℚ
  AirFlow_Rate : ℚ
  Throttle_Position : ℚ
  Air_Temperature : ℚ
  Acc_Pedal_Pos_D : ℚ
  Acc_Pedal_Pos_E : ℚ
  Timestamp : Nat
deriving DecidableEq

/-- Cause tag appended at line 60. -/
def overheatingMsg : String := "Overheating (Coolant Temp > 100°C)"

/-- Cause tag appended at line 62. -/
def stallMsg : String := "RPM too low for throttle → possible stall"

/-- Cause tag appended at line 64. -/
def blockageMsg : String := "High manifold pressure → possible blockage"

/-- Cause tag appended at line 66. -/
def intakeMsg : String := "Abnormal intake air temperature"

/-- Cause tag appended at line 68. -/
def gearMsg : String := "Pedal pressed but vehicle not moving → possible gear issue"

/-- Sentinel primary cause (line 155). -/
def noneStr : String := "None"

/-- Cause explanation logic, `get_causes` (lines 55-69): an accumulator of
tags, every applicable rule fires, in the source's fixed order. -/
def get_causes (row : Reading) : List String :=
  let factor : ℚ := 70
  let causes : List String := []
  let causes :=
    if row.Vehicle_Speed > 1 then
      let causes :=
        if row.Engine_Coolant_Temperature > 100 then causes ++ [overheatingMsg] else causes
      let causes :=
        if row.Throttle_Position < 70 ∧ row.Engine_RPM < row.Throttle_Position * factor then
          causes ++ [stallMsg]
        else causes
      let causes :=
        if row.Intake_Manifold_Abs_Pressure > 220 then causes ++ [blockageMsg] else causes
      if row.Intake_Air_Temperature > 120 ∨ row.Intake_Air_Temperature < -20 then
        causes ++ [intakeMsg]
      else causes
    else causes
  if row.Acc_Pedal_Pos_D > 30 ∧ row.Vehicle_Speed < 5 then causes ++ [gearMsg] else causes

/-- Primary-cause selection (line 155): `causes[0] if causes else "None"`. -/
def main_cause (causes : List String) : String :=
  match causes with
  | [] => noneStr
  | c :: _ => c

/-- `round(prob, 4)` (line 162): the class-1 probability rounded to four
decimal places. -/
def round4 (q : ℚ) : ℚ := ((round (q * 10000) : ℤ) : ℚ) / 10000

/-- One row of the session buffer, `row_log` (lines 157-163): the reading's
columns plus the enrichment fields. -/
structure RowLog where
  reading : Reading
  timestamp : Nat
  vehicle_id : String
  driver : String
  prediction : Int
  probability : ℚ
  breakdown_cause : String
deriving DecidableEq

/-- Assembly of `row_log` for one reading (lines 151-163): prediction is the
classifier output converted to an integer, probability is the class-1
probability rounded to 4 decimals, breakdown cause is the selected primary
cause of `get_causes`. -/
def mkRowLog (r : Reading) (now : Nat) (vid drv : String) (pred : Int) (prob : ℚ) : RowLog :=
  { reading := r
    timestamp := now
    vehicle_id := vid
    driver := drv
    prediction := pred
    probability := round4 prob
    breakdown_cause := main_cause (get_causes r) }

/-- A concrete all-zero reading, used to instantiate hypotheses. -/
def rZero : Reading := ⟨0, 0, 0, 0, 0, 0, 0, 0, 0, 0, 0⟩

/-- The reading of the spec's scenario (section 8): speed 60, coolant 105,
throttle 50, rpm 1000, manifold pressure 200, intake air temperature 30,
accelerator channel D 0; the remaining columns are 0. -/
def rScenario : Reading := ⟨105, 200, 1000, 60, 30, 0, 50, 0, 0, 0, 0⟩

/-- A wall-clock instant at the resolution the program can observe,
split as the part used by `strftime("%Y-%m-%d_%H-%M-%S")` (line 133). -/
structure Stamp where
  year : Nat
  month : Nat
  day : Nat
  hour : Nat
  minute : Nat
  second : Nat
deriving DecidableEq

/-- The full instant of a persist call: the formatted second-resolution part
plus the sub-second remainder that `strftime` discards. -/
structure CallTime where
  stamp : Stamp
  millis : Nat
deriving DecidableEq

/-- Bounds under which each field fits its zero-padded width in the
`strftime` output (real dates satisfy far tighter bounds). -/
def validStamp (t : Stamp) : Prop :=
  t.year < 10 ^ 4 ∧ t.month < 10 ^ 2 ∧ t.day < 10 ^ 2 ∧
    t.hour < 10 ^ 2 ∧ t.minute < 10 ^ 2 ∧ t.second < 10 ^ 2

instance (t : Stamp) : Decidable (validStamp t) := by
  unfold validStamp; infer_instance

/-- Chronological (lexicographic field-by-field) order on second-resolution
instants. -/
def chronLt (a b : Stamp) : Prop :=
  a.year < b.year ∨ (a.year = b.year ∧
    (a.month < b.month ∨ (a.month = b.month ∧
      (a.day < b.day ∨ (a.day = b.day ∧
        (a.hour < b.hour ∨ (a.hour = b.hour ∧
          (a.minute < b.minute ∨ (a.minute = b.minute ∧
            a.second < b.second)))))))))

instance (a b : Stamp) : Decidable (chronLt a b) := by
  unfold chronLt; infer_instance

/-- The character codes of the decimal digits of `n`, zero-padded to width
`w` (most significant first): how `strftime` renders each field. -/
def padC : Nat → Nat → List Nat
  | 0, _ => []
  | w + 1, n => (48 + n / 10 ^ w) :: padC w (n % 10 ^ w)

/-- Lexicographic comparison of code lists: exactly how Python compares the
strings that `sorted` orders (line 86); a strict prefix is smaller. -/
def lexLt : List Nat → List Nat → Bool
  | [], [] => false
  | [], _ :: _ => true
  | _ :: _, [] => false
  | a :: as, b :: bs => if a < b then true else if b < a then false else lexLt as bs

/-- Character codes of the fixed file-name tail `"_log.csv"` (line 136). -/
def csvTail : List Nat := [95, 108, 111, 103, 46, 99, 115, 118]

/-- The log file name for a stop instant (lines 133 and 136):
`strftime("%Y-%m-%d_%H-%M-%S")` followed by `"_log.csv"`, as character
codes (45 is the hyphen, 95 the underscore). -/
def logName (t : Stamp) : List Nat :=
  padC 4 t.year ++ 45 :: (padC 2 t.month ++ 45 :: (padC 2 t.day ++ 95 ::
    (padC 2 t.hour ++ 45 :: (padC 2 t.minute ++ 45 :: (padC 2 t.second ++ csvTail)))))

/-- A stored file's key: the per-vehicle folder `logs/<vehicle>` (line 134)
and the file name inside it. -/
def LogPath : Type := String × List Nat

instance : DecidableEq LogPath := by
  unfold LogPath; infer_instance

/-- `os.path.join(log_folder, f"{today}_log.csv")` (lines 134-136). -/
def logPath (vid : String) (t : Stamp) : LogPath := ("logs/" ++ vid, logName t)

/-- The session-flush guard and write (lines 131-137 and 184-190): nothing
is written when the buffer is empty, otherwise the whole buffer goes to the
timestamp-named file. -/
def flushSession (vid : String) (t : Stamp) (buf : List RowLog) :
    Option (LogPath × List RowLog) :=
  if buf.isEmpty then none else some (logPath vid t, buf)

/-- The durable store: contents (row lists) by path. -/
def FileSys : Type := LogPath → Option (List RowLog)

/-- The Stop-button handler's effect on storage (lines 129-139): flush the
buffer if non-empty; report which path, if any, was written. -/
def stopSim (vid : String) (t : Stamp) (buf : List RowLog) (fs : FileSys) :
    FileSys × Option LogPath :=
  match flushSession vid t buf with
  | none => (fs, none)
  | some (p, rows) => (fun q => if q = p then some rows else fs q, some p)

/-- Model of `log_df.to_csv(log_path)` (lines 137 and 190) interrupted
mid-write: `to_csv` opens the destination path itself — there is no
temporary file and no rename — and writes the rows in order, so if the
write stops after `k` rows the destination holds exactly the first `k`
rows (`k ≥ rows.length` is a completed write). -/
def toCsvUpTo (fs : FileSys) (p : LogPath) (rows : List RowLog) (k : Nat) : FileSys :=
  fun q => if q = p then some (rows.take k) else fs q

/-- One pass of the live-monitoring loop (lines 147-180) over the remaining
readings: for each reading query the classifier (`model.predict` /
`model.predict_proba`, which may raise), assemble `row_log` and append it to
the session buffer.  Returns the buffer together with the error that ended
the loop, if any; an error propagates immediately, skipping everything after
the loop. -/
def runLoopE (clf : Reading → Except String (Int × ℚ)) (clock : Nat → Nat)
    (vid drv : String) : List Reading → Nat → List RowLog → List RowLog × Option String
  | [], _, buf => (buf, none)
  | r :: rest, i, buf =>
    match clf r with
    | Except.error e => (buf, some e)
    | Except.ok pq =>
      runLoopE clf clock vid drv rest (i + 1) (buf ++ [mkRowLog r (clock i) vid drv pq.1 pq.2])

/-- A full Live-Monitoring run after Start (lines 141-191): iterate over
`base_df.head(15000)`; if the loop finishes, flush the buffer (empty buffer:
no file); if the classifier raised, the flush code is never reached.
Returns (what was persisted, the session buffer, the surfaced error). -/
def runScript (clf : Reading → Except String (Int × ℚ)) (clock : Nat → Nat)
    (vid drv : String) (base : List Reading) (stopAt : Stamp) :
    Option (LogPath × List RowLog) × List RowLog × Option String :=
  match runLoopE clf clock vid drv (base.take 15000) 0 [] with
  | (buf, some e) => (none, buf, some e)
  | (buf, none) => (flushSession vid stopAt buf, buf, none)

/-- Number of rows durably written by a persist outcome. -/
def rowsWritten : Option (LogPath × List RowLog) → Nat
  | none => 0
  | some (_, rows) => rows.length

/-- Descending insertion with respect to `lexLt`. -/
def insertDesc (x : List Nat) : List (List Nat) → List (List Nat)
  | [] => [x]
  | y :: ys => if lexLt x y then y :: insertDesc x ys else x :: y :: ys

/-- `sorted(..., reverse=True)` (line 86): the file names in descending
lexicographic order. -/
def sortDesc (l : List (List Nat)) : List (List Nat) := l.foldr insertDesc []

/-- The dashboard's latest-log choice, `files[0]` of the reverse-sorted
listing (lines 86-88). -/
def latestFile (files : List (List Nat)) : Option (List Nat) := (sortDesc files).head?

/-- A classifier that succeeds on `rOk` and raises on any reading with zero
rpm; used as a concrete failing instance. -/
def clfBad (r : Reading) : Except String (Int × ℚ) :=
  if r.Engine_RPM = 0 then Except.error "boom" else Except.ok (1, 1 / 2)

/-- A reading `clfBad` accepts (rpm 1). -/
def rOk : Reading := ⟨0, 0, 1, 0, 0, 0, 0, 0, 0, 0, 0⟩

/-- A constant zero clock for concrete instances. -/
def clock0 : Nat → Nat := fun _ => 0

/-- A concrete stop instant: 2025-06-01 10:20:30. -/
def s2025 : Stamp := ⟨2025, 6, 1, 10, 20, 30⟩

/-- A later concrete instant in the same day: 2025-06-01 10:20:31. -/
def s2025b : Stamp := ⟨2025, 6, 1, 10, 20, 31⟩

/-- C1: for every reading whose vehicle speed is at most 1 and whose
accelerator-pedal channel D is at most 30, `get_causes` returns the empty
sequence of cause tags. -/
theorem get_causes_empty_of_slow (r : Reading)
    (h1 : r.Vehicle_Speed ≤ 1) (h2 : r.Acc_Pedal_Pos_D ≤ 30) :
    get_causes r = [] := by
  have hs : ¬ (r.Vehicle_Speed > 1) := not_lt.mpr h1
  have hp : ¬ (r.Acc_Pedal_Pos_D > 30 ∧ r.Vehicle_Speed < 5) :=
    fun h => absurd h.1 (not_lt.mpr h2)
  simp [get_causes, hs, hp]

theorem get_causes_empty_of_slow_inst :
    rZero.Vehicle_Speed ≤ 1 ∧ rZero.Acc_Pedal_Pos_D ≤ 30 ∧ get_causes rZero = [] :=
  ⟨by norm_num [rZero], by norm_num [rZero],
    get_causes_empty_of_slow rZero (by norm_num [rZero]) (by norm_num [rZero])⟩

lemma get_causes_rScenario_eq : get_causes rScenario = [overheatingMsg, stallMsg] := by
  norm_num [get_causes, rScenario]

/-- C2: on the scenario reading (speed 60, coolant 105, throttle 50, rpm
1000, manifold 200, intake air 30, pedal D 0) the rule engine returns
exactly the overheating tag followed by the stall tag, and the selected
primary cause is the overheating tag. -/
theorem get_causes_scenario :
    get_causes rScenario = [overheatingMsg, stallMsg] ∧
      main_cause (get_causes rScenario) = overheatingMsg :=
  ⟨get_causes_rScenario_eq, by rw [get_causes_rScenario_eq]; rfl⟩

/-- C8: the `breakdown_cause` stored in the enriched row is the first tag of
`get_causes` when that sequence is non-empty and the sentinel "None" when it
is empty; the stored selection does not alter the tag sequence itself. -/
theorem breakdown_cause_head (r : Reading) (now : Nat) (vid drv : String)
    (pred : Int) (prob : ℚ) :
    (get_causes r = [] → (mkRowLog r now vid drv pred prob).breakdown_cause = noneStr) ∧
    (∀ c cs, get_causes r = c :: cs →
      (mkRowLog r now vid drv pred prob).breakdown_cause = c) := by
  constructor
  · intro h
    simp [mkRowLog, main_cause, h]
  · intro c cs h
    simp [mkRowLog, main_cause, h]

theorem breakdown_cause_head_inst :
    get_causes rScenario = overheatingMsg :: [stallMsg] ∧
      (mkRowLog rScenario 0 "KA-01" "Rishab" 1 0).breakdown_cause = overheatingMsg :=
  ⟨get_causes_rScenario_eq,
    (breakdown_cause_head rScenario 0 "KA-01" "Rishab" 1 0).2 overheatingMsg [stallMsg]
      get_causes_rScenario_eq⟩

/-- C10: the probability stored in the enriched row is the raw class-1
probability rounded to 4 decimal places — hence within 1/20000 = 0.00005 of
the raw value — and the stored prediction is the classifier output taken as
an integer. -/
theorem row_log_probability_rounding (r : Reading) (now : Nat) (vid drv : String)
    (pred : Int) (prob : ℚ) :
    (mkRowLog r now vid drv pred prob).probability = round4 prob ∧
      |round4 prob - prob| ≤ 1 / 20000 ∧
      (mkRowLog r now vid drv pred prob).prediction = pred := by
  refine ⟨rfl, ?_, rfl⟩
  have h := abs_sub_round (prob * 10000)
  have hrw : round4 prob - prob = -(prob * 10000 - ((round (prob * 10000) : ℤ) : ℚ)) / 10000 := by
    rw [round4]; ring
  rw [hrw, abs_div, abs_neg]
  rw [abs_of_nonneg (by norm_num : (0:ℚ) ≤ 10000)]
  rw [div_le_iff₀ (by norm_num : (0:ℚ) < 10000)]
  calc |prob * 10000 - ((round (prob * 10000) : ℤ) : ℚ)| ≤ 1 / 2 := h
    _ ≤ 1 / 20000 * 10000 := by norm_num

lemma round4_nonneg (q : ℚ) (h : 0 ≤ q) : 0 ≤ round4 q := by
  unfold round4
  apply div_nonneg _ (by norm_num)
  have hz : (0:ℤ) ≤ round (q * 10000) := by
    rw [round_eq]
    apply Int.le_floor.mpr
    have := mul_nonneg h (by norm_num : (0:ℚ) ≤ 10000)
    push_cast
    linarith
  exact_mod_cast hz

lemma round4_le_one (q : ℚ) (h : q ≤ 1) : round4 q ≤ 1 := by
  unfold round4
  rw [div_le_one (by norm_num : (0:ℚ) < 10000)]
  have hz : round (q * 10000) ≤ (10000:ℤ) := by
    rw [round_eq]
    apply Int.floor_le_iff.mpr
    have := mul_le_mul_of_nonneg_right h (by norm_num : (0:ℚ) ≤ 10000)
    push_cast
    linarith
  exact_mod_cast hz

lemma runLoopE_ok_spec (clf : Reading → Except String (Int × ℚ)) (clock : Nat → Nat)
    (vid drv : String) (xs : List Reading) :
    ∀ (i : Nat) (buf : List RowLog),
      (∀ r ∈ xs, ∃ p q, clf r = Except.ok (p, q)) →
      (runLoopE clf clock vid drv xs i buf).2 = none ∧
      (runLoopE clf clock vid drv xs i buf).1.length = buf.length + xs.length ∧
      ∀ rec ∈ (runLoopE clf clock vid drv xs i buf).1,
        rec ∈ buf ∨ ∃ r ∈ xs, ∃ ts p q,
          clf r = Except.ok (p, q) ∧ rec = mkRowLog r ts vid drv p q := by
  induction xs with
  | nil =>
    intro i buf _
    exact ⟨rfl, by simp [runLoopE], fun rec hrec => Or.inl hrec⟩
  | cons r rest ih =>
    intro i buf h
    obtain ⟨p, q, hok⟩ := h r (List.mem_cons_self r rest)
    have hrest : ∀ x ∈ rest, ∃ p q, clf x = Except.ok (p, q) :=
      fun x hx => h x (List.mem_cons_of_mem r hx)
    obtain ⟨ih1, ih2, ih3⟩ :=
      ih (i + 1) (buf ++ [mkRowLog r (clock i) vid drv p q]) hrest
    have hstep : runLoopE clf clock vid drv (r :: rest) i buf =
        runLoopE clf clock vid drv rest (i + 1)
          (buf ++ [mkRowLog r (clock i) vid drv p q]) := by
      simp [runLoopE, hok]
    rw [hstep]
    refine ⟨ih1, by rw [ih2]; simp; omega, ?_⟩
    intro rec hrec
    rcases ih3 rec hrec with hmem | ⟨r', hr', ts, p', q', hok', heq⟩
    · rcases List.mem_append.mp hmem with hbuf | hnew
      · exact Or.inl hbuf
      · refine Or.inr ⟨r, List.mem_cons_self r rest, clock i, p, q, hok, ?_⟩
        simpa using hnew
    · exact Or.inr ⟨r', List.mem_cons_of_mem r hr', ts, p', q', hok', heq⟩

/-- C3: a run in which the classifier succeeds on every reading (with its
contractual output ranges) completes with no error, buffers exactly one
record per reading, durably writes exactly that many rows, and every
buffered record has probability in [0, 1] and prediction in {0, 1}. -/
theorem run_complete_counts (clf : Reading → Except String (Int × ℚ)) (clock : Nat → Nat)
    (vid drv : String) (base : List Reading) (stopAt : Stamp)
    (h : ∀ r ∈ base.take 15000, ∃ p q,
      clf r = Except.ok (p, q) ∧ (p = 0 ∨ p = 1) ∧ 0 ≤ q ∧ q ≤ 1) :
    (runScript clf clock vid drv base stopAt).2.2 = none ∧
    (runScript clf clock vid drv base stopAt).2.1.length = (base.take 15000).length ∧
    rowsWritten (runScript clf clock vid drv base stopAt).1 = (base.take 15000).length ∧
    ∀ rec ∈ (runScript clf clock vid drv base stopAt).2.1,
      0 ≤ rec.probability ∧ rec.probability ≤ 1 ∧
        (rec.prediction = 0 ∨ rec.prediction = 1) := by
  have h' : ∀ r ∈ base.take 15000, ∃ p q, clf r = Except.ok (p, q) := by
    intro r hr
    obtain ⟨p, q, hok, _⟩ := h r hr
    exact ⟨p, q, hok⟩
  obtain ⟨h1, h2, h3⟩ := runLoopE_ok_spec clf clock vid drv (base.take 15000) 0 [] h'
  rcases hres : runLoopE clf clock vid drv (base.take 15000) 0 [] with ⟨buf, err⟩
  rw [hres] at h1 h2 h3
  simp only at h1 h2 h3
  subst h1
  have hscript : runScript clf clock vid drv base stopAt =
      (flushSession vid stopAt buf, buf, none) := by
    rw [runScript, hres]
  rw [hscript]
  have hlen : buf.length = (base.take 15000).length := by simpa using h2
  refine ⟨rfl, hlen, ?_, ?_⟩
  · rw [← hlen]
    cases buf with
    | nil => simp [flushSession, rowsWritten]
    | cons a l => simp [flushSession, rowsWritten]
  · intro rec hrec
    rcases h3 rec hrec with hmem | ⟨r, hr, ts, p, q, hok, heq⟩
    · simp at hmem
    · obtain ⟨p', q', hok', hp', hq1', hq2'⟩ := h r hr
      have hpq : (p, q) = (p', q') := Except.ok.inj (hok.symm.trans hok')
      cases hpq
      subst heq
      exact ⟨round4_nonneg q hq1', round4_le_one q hq2', hp'⟩

theorem run_complete_counts_inst :
    (∀ r ∈ ([rOk].take 15000), ∃ p q,
      clfBad r = Except.ok (p, q) ∧ (p = 0 ∨ p = 1) ∧ 0 ≤ q ∧ q ≤ 1) ∧
    ((runScript clfBad clock0 "KA-01" "Rishab" [rOk] s2025).2.2 = none ∧
     (runScript clfBad clock0 "KA-01" "Rishab" [rOk] s2025).2.1.length =
       ([rOk].take 15000).length ∧
     rowsWritten (runScript clfBad clock0 "KA-01" "Rishab" [rOk] s2025).1 =
       ([rOk].take 15000).length ∧
     ∀ rec ∈ (runScript clfBad clock0 "KA-01" "Rishab" [rOk] s2025).2.1,
       0 ≤ rec.probability ∧ rec.probability ≤ 1 ∧
         (rec.prediction = 0 ∨ rec.prediction = 1)) := by
  have hyp : ∀ r ∈ ([rOk].take 15000), ∃ p q,
      clfBad r = Except.ok (p, q) ∧ (p = 0 ∨ p = 1) ∧ 0 ≤ q ∧ q ≤ 1 := by
    have htake : ([rOk].take 15000) = [rOk] := rfl
    rw [htake]
    intro r hr
    rw [List.mem_singleton] at hr
    subst hr
    exact ⟨1, 1 / 2, by norm_num [clfBad, rOk], Or.inr rfl, by norm_num, by norm_num⟩
  exact ⟨hyp, run_complete_counts clfBad clock0 "KA-01" "Rishab" [rOk] s2025 hyp⟩

lemma runLoopE_err_spec (clf : Reading → Except String (Int × ℚ)) (clock : Nat → Nat)
    (vid drv : String) (rbad : Reading) (post : List Reading) (e : String)
    (hbad : clf rbad = Except.error e) (pre : List Reading) :
    ∀ (i : Nat) (buf : List RowLog),
      (∀ r ∈ pre, ∃ p q, clf r = Except.ok (p, q)) →
      runLoopE clf clock vid drv (pre ++ rbad :: post) i buf =
        ((runLoopE clf clock vid drv pre i buf).1, some e) := by
  induction pre with
  | nil =>
    intro i buf _
    simp [runLoopE, hbad]
  | cons r rest ih =>
    intro i buf h
    obtain ⟨p, q, hok⟩ := h r (List.mem_cons_self r rest)
    have hrest : ∀ x ∈ rest, ∃ p q, clf x = Except.ok (p, q) :=
      fun x hx => h x (List.mem_cons_of_mem r hx)
    simp only [List.cons_append, runLoopE, hok]
    exact ih (i + 1) (buf ++ [mkRowLog r (clock i) vid drv p q]) hrest


/-- C4 counterexample: a concrete run in which the classifier succeeds on
the first reading and raises on the second.  The run terminates with the
error surfaced and one record buffered, yet nothing at all is persisted:
the buffered record is not flushed to the log store, contradicting the
claimed implicit-Stop flush. -/
theorem run_failure_no_flush_example :
    runScript clfBad clock0 "KA-01" "Rishab" [rOk, rZero] s2025 =
      (none, [mkRowLog rOk 0 "KA-01" "Rishab" 1 (1 / 2)], some "boom") := by
  rfl

/-- C4 as amended: if the classifier raises on one reading while the run is
live, the run terminates there with the error surfaced; the records built
from the readings before the failing one are retained in the in-memory
session buffer, but no file is persisted before the failure is surfaced. -/
theorem run_failure_keeps_buffer (clf : Reading → Except String (Int × ℚ))
    (clock : Nat → Nat) (vid drv : String) (base : List Reading) (stopAt : Stamp)
    (pre post : List Reading) (rbad : Reading) (e : String)
    (hsplit : base.take 15000 = pre ++ rbad :: post)
    (hpre : ∀ r ∈ pre, ∃ p q, clf r = Except.ok (p, q))
    (hbad : clf rbad = Except.error e) :
    (runScript clf clock vid drv base stopAt).1 = none ∧
    (runScript clf clock vid drv base stopAt).2.2 = some e ∧
    (runScript clf clock vid drv base stopAt).2.1 =
      (runLoopE clf clock vid drv pre 0 []).1 := by
  have herr := runLoopE_err_spec clf clock vid drv rbad post e hbad pre 0 [] hpre
  have hscript : runScript clf clock vid drv base stopAt =
      (none, (runLoopE clf clock vid drv pre 0 []).1, some e) := by
    rw [runScript, hsplit, herr]
  rw [hscript]
  exact ⟨rfl, rfl, rfl⟩

theorem run_failure_keeps_buffer_inst :
    (([rOk, rZero].take 15000) = [rOk] ++ rZero :: [] ∧
      (∀ r ∈ [rOk], ∃ p q, clfBad r = Except.ok (p, q)) ∧
      clfBad rZero = Except.error "boom") ∧
    ((runScript clfBad clock0 "KA-01" "Rishab" [rOk, rZero] s2025).1 = none ∧
     (runScript clfBad clock0 "KA-01" "Rishab" [rOk, rZero] s2025).2.2 = some "boom" ∧
     (runScript clfBad clock0 "KA-01" "Rishab" [rOk, rZero] s2025).2.1 =
       (runLoopE clfBad clock0 "KA-01" "Rishab" [rOk] 0 []).1) := by
  have h1 : ([rOk, rZero].take 15000) = [rOk] ++ rZero :: [] := rfl
  have h2 : ∀ r ∈ [rOk], ∃ p q, clfBad r = Except.ok (p, q) := by
    intro r hr
    rw [List.mem_singleton] at hr
    subst hr
    exact ⟨1, 1 / 2, by norm_num [clfBad, rOk]⟩
  have h3 : clfBad rZero = Except.error "boom" := by norm_num [clfBad, rZero]
  exact ⟨⟨h1, h2, h3⟩,
    run_failure_keeps_buffer clfBad clock0 "KA-01" "Rishab" [rOk, rZero] s2025
      [rOk] [] rZero "boom" h1 h2 h3⟩

/-- C7: a Stop issued with an empty session buffer writes nothing: the
filesystem is returned unchanged, no path is reported as written, and the
handler produces no error outcome. -/
theorem stop_empty_noop (vid : String) (t : Stamp) (fs : FileSys) :
    stopSim vid t [] fs = (fs, none) := by
  rfl

lemma lexLt_irrefl (x : List Nat) : lexLt x x = false := by
  induction x with
  | nil => rfl
  | cons a as ih => simp [lexLt, ih]

lemma lexLt_asymm : ∀ (x y : List Nat), lexLt x y = true → lexLt y x = false
  | [], [], h => by simp [lexLt] at h
  | [], _ :: _, _ => by simp [lexLt]
  | _ :: _, [], h => by simp [lexLt] at h
  | a :: as, b :: bs, h => by
    simp only [lexLt] at h ⊢
    rcases Nat.lt_trichotomy a b with hab | hab | hab
    · rw [if_neg (Nat.lt_asymm hab), if_pos hab]
    · subst hab
      rw [if_neg (lt_irrefl a), if_neg (lt_irrefl a)] at h ⊢
      exact lexLt_asymm as bs h
    · rw [if_neg (Nat.lt_asymm hab), if_pos hab] at h
      exact absurd h (by simp)

lemma lexLt_negtrans : ∀ (x y z : List Nat),
    lexLt x y = false → lexLt y z = false → lexLt x z = false
  | [], [], z, _, h2 => h2
  | [], _ :: _, _, h1, _ => by simp [lexLt] at h1
  | _ :: _, _, [], _, _ => by cases ‹List Nat› <;> rfl
  | a :: as, [], c :: cs, _, h2 => by simp [lexLt] at h2
  | a :: as, b :: bs, c :: cs, h1, h2 => by
    simp only [lexLt] at h1 h2 ⊢
    rcases Nat.lt_trichotomy a b with hab | hab | hab
    · rw [if_pos hab] at h1
      exact absurd h1 (by simp)
    · subst hab
      rw [if_neg (lt_irrefl a), if_neg (lt_irrefl a)] at h1
      rcases Nat.lt_trichotomy a c with hac | hac | hac
      · rw [if_pos hac] at h2
        exact absurd h2 (by simp)
      · subst hac
        rw [if_neg (lt_irrefl a), if_neg (lt_irrefl a)] at h2 ⊢
        exact lexLt_negtrans as bs cs h1 h2
      · rw [if_neg (Nat.lt_asymm hac), if_pos hac]
    · by_cases hbc : b < c
      · rw [if_pos hbc] at h2
        exact absurd h2 (by simp)
      · have hca : c < a := by omega
        rw [if_neg (Nat.lt_asymm hca), if_pos hca]

lemma lexLt_cons_same (c : Nat) (x y : List Nat) :
    lexLt (c :: x) (c :: y) = lexLt x y := by
  simp [lexLt]

lemma lexLt_append : ∀ (u v a b : List Nat), u.length = v.length →
    lexLt (u ++ a) (v ++ b) = (lexLt u v || (decide (u = v) && lexLt a b))
  | [], [], a, b, _ => by simp [lexLt]
  | [], _ :: _, _, _, h => by simp at h
  | _ :: _, [], _, _, h => by simp at h
  | x :: us, y :: vs, a, b, h => by
    simp only [List.cons_append, lexLt]
    rcases Nat.lt_trichotomy x y with hxy | hxy | hxy
    · rw [if_pos hxy, if_pos hxy]
      simp
    · subst hxy
      rw [if_neg (lt_irrefl x), if_neg (lt_irrefl x), if_neg (lt_irrefl x),
        if_neg (lt_irrefl x)]
      simp only [List.append_eq]
      rw [lexLt_append us vs a b (by simpa using h)]
      simp [List.cons.injEq]
    · rw [if_neg (Nat.lt_asymm hxy), if_pos hxy, if_neg (Nat.lt_asymm hxy), if_pos hxy]
      have : x ≠ y := by omega
      simp [this]

lemma div_lt_imp_lt (B n m : Nat) (h : n / B < m / B) : n < m := by
  by_contra hc
  have hle : m ≤ n := Nat.le_of_not_lt hc
  have := Nat.div_le_div_right (c := B) hle
  exact Nat.lt_irrefl _ (Nat.lt_of_lt_of_le h this)

lemma divmod_lt_iff (B n m : Nat) (h : n / B = m / B) : n < m ↔ n % B < m % B := by
  have h1 := Nat.div_add_mod n B
  have h2 := Nat.div_add_mod m B
  rw [h] at h1
  constructor
  · intro hnm
    have hadd : B * (m / B) + n % B < B * (m / B) + m % B := by
      rw [h1, h2]
      exact hnm
    exact lt_of_add_lt_add_left hadd
  · intro hr
    have hadd : B * (m / B) + n % B < B * (m / B) + m % B := add_lt_add_left hr _
    rw [h1, h2] at hadd
    exact hadd

lemma padC_length : ∀ (w n : Nat), (padC w n).length = w := by
  intro w
  induction w with
  | zero => intro n; rfl
  | succ w ih => intro n; simp [padC, ih]

lemma padC_lt : ∀ (w n m : Nat), n < 10 ^ w → m < 10 ^ w →
    lexLt (padC w n) (padC w m) = decide (n < m) := by
  intro w
  induction w with
  | zero =>
    intro n m hn hm
    interval_cases n
    interval_cases m
    rfl
  | succ w ih =>
    intro n m hn hm
    have hB : 0 < 10 ^ w := Nat.pos_pow_of_pos w (by norm_num)
    simp only [padC, lexLt]
    rcases Nat.lt_trichotomy (n / 10 ^ w) (m / 10 ^ w) with hq | hq | hq
    · rw [if_pos (by omega)]
      have : n < m := div_lt_imp_lt (10 ^ w) n m hq
      simp [this]
    · rw [if_neg (by omega), if_neg (by omega)]
      rw [ih (n % 10 ^ w) (m % 10 ^ w) (Nat.mod_lt _ hB) (Nat.mod_lt _ hB)]
      exact decide_eq_decide.mpr (divmod_lt_iff (10 ^ w) n m hq).symm
    · rw [if_neg (by omega), if_pos (by omega)]
      have : m < n := div_lt_imp_lt (10 ^ w) m n hq
      have : ¬ (n < m) := by omega
      simp [this]

lemma padC_eq_iff (w n m : Nat) (hn : n < 10 ^ w) (hm : m < 10 ^ w) :
    padC w n = padC w m ↔ n = m := by
  constructor
  · intro h
    rcases Nat.lt_trichotomy n m with hc | hc | hc
    · have := padC_lt w n m hn hm
      rw [h, lexLt_irrefl] at this
      simp [hc] at this
    · exact hc
    · have := padC_lt w m n hm hn
      rw [h, lexLt_irrefl] at this
      simp [hc] at this
  · intro h
    rw [h]

lemma padC_eq_decide (w n m : Nat) (hn : n < 10 ^ w) (hm : m < 10 ^ w) :
    decide (padC w n = padC w m) = decide (n = m) := by
  rw [decide_eq_decide]
  exact padC_eq_iff w n m hn hm

lemma lexLt_logName (s t : Stamp) (hs : validStamp s) (ht : validStamp t) :
    lexLt (logName s) (logName t) = decide (chronLt s t) := by
  obtain ⟨hs1, hs2, hs3, hs4, hs5, hs6⟩ := hs
  obtain ⟨ht1, ht2, ht3, ht4, ht5, ht6⟩ := ht
  rw [logName, logName]
  rw [lexLt_append (padC 4 s.year) (padC 4 t.year) _ _ (by rw [padC_length, padC_length])]
  rw [padC_lt 4 s.year t.year hs1 ht1]
  rw [padC_eq_decide 4 s.year t.year hs1 ht1]
  rw [lexLt_cons_same]
  rw [lexLt_append (padC 2 s.month) (padC 2 t.month) _ _ (by rw [padC_length, padC_length])]
  rw [padC_lt 2 s.month t.month hs2 ht2]
  rw [padC_eq_decide 2 s.month t.month hs2 ht2]
  rw [lexLt_cons_same]
  rw [lexLt_append (padC 2 s.day) (padC 2 t.day) _ _ (by rw [padC_length, padC_length])]
  rw [padC_lt 2 s.day t.day hs3 ht3]
  rw [padC_eq_decide 2 s.day t.day hs3 ht3]
  rw [lexLt_cons_same]
  rw [lexLt_append (padC 2 s.hour) (padC 2 t.hour) _ _ (by rw [padC_length, padC_length])]
  rw [padC_lt 2 s.hour t.hour hs4 ht4]
  rw [padC_eq_decide 2 s.hour t.hour hs4 ht4]
  rw [lexLt_cons_same]
  rw [lexLt_append (padC 2 s.minute) (padC 2 t.minute) _ _ (by rw [padC_length, padC_length])]
  rw [padC_lt 2 s.minute t.minute hs5 ht5]
  rw [padC_eq_decide 2 s.minute t.minute hs5 ht5]
  rw [lexLt_cons_same]
  rw [lexLt_append (padC 2 s.second) (padC 2 t.second) _ _ (by rw [padC_length, padC_length])]
  rw [padC_lt 2 s.second t.second hs6 ht6]
  rw [padC_eq_decide 2 s.second t.second hs6 ht6]
  rw [lexLt_irrefl]
  simp [chronLt]

lemma chron_trichotomy (s t : Stamp) : chronLt s t ∨ s = t ∨ chronLt t s := by
  obtain ⟨y1, mo1, d1, h1, mi1, s1⟩ := s
  obtain ⟨y2, mo2, d2, h2, mi2, s2⟩ := t
  simp only [chronLt, Stamp.mk.injEq]
  omega

/-- C6 counterexample: two distinct persist-call instants lying in the same
wall-clock second (they differ only in the sub-second part `strftime`
discards) generate the very same log path, so the second write overwrites
the first instead of getting a fresh key. -/
theorem log_path_collision_example :
    (CallTime.mk s2025 0) ≠ (CallTime.mk s2025 500) ∧
    logPath "KA-01" (CallTime.mk s2025 0).stamp =
      logPath "KA-01" (CallTime.mk s2025 500).stamp := by
  constructor
  · intro h
    have := congrArg CallTime.millis h
    simp at this
  · rfl

/-- C6 as amended: the log path is determined by the vehicle and the
second-resolution stop instant alone — two persist calls for the same
vehicle collide exactly when their instants agree after truncation to
seconds, and are unique otherwise. -/
theorem log_path_eq_iff (vid : String) (s t : Stamp)
    (hs : validStamp s) (ht : validStamp t) :
    logPath vid s = logPath vid t ↔ s = t := by
  constructor
  · intro h
    have hname : logName s = logName t := congrArg Prod.snd h
    rcases chron_trichotomy s t with hc | hc | hc
    · exfalso
      have hfalse := (lexLt_logName s t hs ht).symm
      rw [hname, lexLt_irrefl] at hfalse
      rw [decide_eq_false_iff_not] at hfalse
      exact hfalse hc
    · exact hc
    · exfalso
      have hfalse := (lexLt_logName t s ht hs).symm
      rw [hname, lexLt_irrefl] at hfalse
      rw [decide_eq_false_iff_not] at hfalse
      exact hfalse hc
  · intro h
    rw [h]

theorem log_path_eq_iff_inst :
    (validStamp s2025 ∧ validStamp s2025b) ∧
    (logPath "KA-01" s2025 = logPath "KA-01" s2025b ↔ s2025 = s2025b) :=
  ⟨⟨by decide, by decide⟩, log_path_eq_iff "KA-01" s2025 s2025b (by decide) (by decide)⟩

/-- C5 counterexample: the flush writes the buffer directly to the
destination path; a write that stops after one of two rows leaves the
destination holding exactly the first row — a file that is neither absent
nor the complete log, i.e. a partially written file at the destination. -/
theorem to_csv_midfail_example :
    toCsvUpTo (fun _ => none) (logPath "KA-01" s2025)
        [mkRowLog rOk 0 "KA-01" "Rishab" 1 0, mkRowLog rZero 0 "KA-01" "Rishab" 1 0] 1
        (logPath "KA-01" s2025) = some [mkRowLog rOk 0 "KA-01" "Rishab" 1 0] ∧
    some [mkRowLog rOk 0 "KA-01" "Rishab" 1 0] ≠ (none : Option (List RowLog)) ∧
    [mkRowLog rOk 0 "KA-01" "Rishab" 1 0] ≠
      [mkRowLog rOk 0 "KA-01" "Rishab" 1 0, mkRowLog rZero 0 "KA-01" "Rishab" 1 0] := by
  refine ⟨by simp [toCsvUpTo], by simp, ?_⟩
  intro h
  have := congrArg List.length h
  simp at this

/-- C5 as amended: the persist step writes the rows directly to the
destination path with no staging; a write interrupted after `k` of `n > k`
rows leaves the destination holding exactly the first `k` rows — a partial
file — while only an uninterrupted write leaves the complete log. -/
theorem to_csv_direct_write (fs : FileSys) (p : LogPath) (rows : List RowLog)
    (k : Nat) (hk : k < rows.length) :
    toCsvUpTo fs p rows k p = some (rows.take k) ∧
    rows.take k ≠ rows ∧
    toCsvUpTo fs p rows rows.length p = some rows := by
  refine ⟨by simp [toCsvUpTo], ?_, by simp [toCsvUpTo]⟩
  intro h
  have hlen := congrArg List.length h
  rw [List.length_take] at hlen
  omega

theorem to_csv_direct_write_inst :
    (1 < ([mkRowLog rOk 0 "KA-01" "Rishab" 1 0,
           mkRowLog rZero 0 "KA-01" "Rishab" 1 0] : List RowLog).length) ∧
    (toCsvUpTo (fun _ => none) (logPath "KA-01" s2025)
        [mkRowLog rOk 0 "KA-01" "Rishab" 1 0, mkRowLog rZero 0 "KA-01" "Rishab" 1 0] 1
        (logPath "KA-01" s2025) =
      some ([mkRowLog rOk 0 "KA-01" "Rishab" 1 0,
             mkRowLog rZero 0 "KA-01" "Rishab" 1 0].take 1) ∧
     ([mkRowLog rOk 0 "KA-01" "Rishab" 1 0,
       mkRowLog rZero 0 "KA-01" "Rishab" 1 0] : List RowLog).take 1 ≠
       [mkRowLog rOk 0 "KA-01" "Rishab" 1 0, mkRowLog rZero 0 "KA-01" "Rishab" 1 0] ∧
     toCsvUpTo (fun _ => none) (logPath "KA-01" s2025)
        [mkRowLog rOk 0 "KA-01" "Rishab" 1 0, mkRowLog rZero 0 "KA-01" "Rishab" 1 0]
        ([mkRowLog rOk 0 "KA-01" "Rishab" 1 0,
          mkRowLog rZero 0 "KA-01" "Rishab" 1 0] : List RowLog).length
        (logPath "KA-01" s2025) =
      some [mkRowLog rOk 0 "KA-01" "Rishab" 1 0, mkRowLog rZero 0 "KA-01" "Rishab" 1 0]) :=
  ⟨by simp,
    to_csv_direct_write (fun _ => none) (logPath "KA-01" s2025)
      [mkRowLog rOk 0 "KA-01" "Rishab" 1 0, mkRowLog rZero 0 "KA-01" "Rishab" 1 0] 1
      (by simp)⟩

lemma mem_insertDesc (x g : List Nat) : ∀ (l : List (List Nat)),
    g ∈ insertDesc x l → g = x ∨ g ∈ l := by
  intro l
  induction l with
  | nil =>
    intro h
    simp [insertDesc] at h
    exact Or.inl h
  | cons y ys ih =>
    intro h
    simp only [insertDesc] at h
    by_cases hc : lexLt x y = true
    · rw [if_pos hc] at h
      rcases List.mem_cons.mp h with h1 | h2
      · exact Or.inr (by simp [h1])
      · rcases ih h2 with h3 | h4
        · exact Or.inl h3
        · exact Or.inr (List.mem_cons_of_mem y h4)
    · rw [if_neg hc] at h
      rcases List.mem_cons.mp h with h1 | h2
      · exact Or.inl h1
      · exact Or.inr h2

lemma sortDesc_head_max : ∀ (l : List (List Nat)), l ≠ [] →
    ∃ f, (sortDesc l).head? = some f ∧ f ∈ l ∧ ∀ g ∈ l, lexLt f g = false := by
  intro l
  induction l with
  | nil => intro h; exact absurd rfl h
  | cons a l0 ih =>
    intro _
    cases l0 with
    | nil =>
      refine ⟨a, rfl, List.mem_singleton_self a, ?_⟩
      intro g hg
      rw [List.mem_singleton] at hg
      rw [hg]
      exact lexLt_irrefl a
    | cons b l1 =>
      obtain ⟨h, hhead, hmem, hmax⟩ := ih (by simp)
      obtain ⟨tl, htl⟩ : ∃ tl, sortDesc (b :: l1) = h :: tl := by
        cases hsd : sortDesc (b :: l1) with
        | nil => rw [hsd] at hhead; simp at hhead
        | cons hh tt =>
          rw [hsd] at hhead
          simp at hhead
          subst hhead
          exact ⟨tt, rfl⟩
      have hrw : sortDesc (a :: b :: l1) = insertDesc a (h :: tl) := by
        show insertDesc a (sortDesc (b :: l1)) = insertDesc a (h :: tl)
        rw [htl]
      by_cases hc : lexLt a h = true
      · refine ⟨h, ?_, List.mem_cons_of_mem a hmem, ?_⟩
        · rw [hrw]
          simp only [insertDesc]
          rw [if_pos hc]
          rfl
        · intro g hg
          rcases List.mem_cons.mp hg with h1 | h2
          · rw [h1]
            exact lexLt_asymm a h hc
          · exact hmax g h2
      · have hc0 : lexLt a h = false := by
          cases hval : lexLt a h
          · rfl
          · exact absurd hval hc
        refine ⟨a, ?_, List.mem_cons_self a (b :: l1), ?_⟩
        · rw [hrw]
          simp only [insertDesc]
          rw [if_neg hc]
          rfl
        · intro g hg
          rcases List.mem_cons.mp hg with h1 | h2
          · rw [h1]
            exact lexLt_irrefl a
          · exact lexLt_negtrans a h g hc0 (hmax g h2)

/-- C9: because the zero-padded `%Y-%m-%d_%H-%M-%S` prefix of the log file
names renders the chronological order as lexicographic string order, the
dashboard's pick — the first file name in reverse-sorted order — is the log
of a chronologically maximal stop instant. -/
theorem latest_file_max (ts : List Stamp) (hne : ts ≠ [])
    (hv : ∀ t ∈ ts, validStamp t) :
    ∃ t, t ∈ ts ∧ latestFile (ts.map logName) = some (logName t) ∧
      ∀ u ∈ ts, ¬ chronLt t u := by
  have hmne : ts.map logName ≠ [] := by simpa using hne
  obtain ⟨f, hhead, hfmem, hmax⟩ := sortDesc_head_max (ts.map logName) hmne
  obtain ⟨t, htmem, hft⟩ := List.mem_map.mp hfmem
  subst hft
  refine ⟨t, htmem, hhead, ?_⟩
  intro u hu hcon
  have hlex := hmax (logName u) (List.mem_map_of_mem logName hu)
  rw [lexLt_logName t u (hv t htmem) (hv u hu)] at hlex
  rw [decide_eq_false_iff_not] at hlex
  exact hlex hcon

theorem latest_file_max_inst :
    (([s2025, s2025b] : List Stamp) ≠ [] ∧ ∀ t ∈ [s2025, s2025b], validStamp t) ∧
    (∃ t, t ∈ [s2025, s2025b] ∧
      latestFile ([s2025, s2025b].map logName) = some (logName t) ∧
      ∀ u ∈ [s2025, s2025b], ¬ chronLt t u) := by
  have h1 : ([s2025, s2025b] : List Stamp) ≠ [] := by simp
  have h2 : ∀ t ∈ [s2025, s2025b], validStamp t := by decide
  exact ⟨⟨h1, h2⟩, latest_file_max [s2025, s2025b] h1 h2⟩

end VehicleApp
